import Mathlib

/-!
Verification of the FileIndex tool (src/fileindex.py) against its
natural-language specification.

The Python program keeps a SQLite table `files (path TEXT PRIMARY KEY,
mtime REAL)` and offers two operations:

* `index_files` (fileindex.py lines 60-203): walks a root directory with
  `os.walk`, applies exclusion rules, and reconciles the table with the
  files found (insert / update / delete), returning True on success and
  False on error;
* `find_files` (lines 206-245): conjunctive substring search over the
  stored paths, built from one SQL `LIKE ?` condition per keyword with the
  keyword wrapped in `%...%`.

The embedding models the filesystem below the root as a finite tree
(`Entry`), the `files` table as an association list (`DB`, keyed by path;
the PRIMARY KEY constraint makes the keys duplicate-free, which appears as
a `Nodup` hypothesis where a theorem needs it), modification times as
integers (the program only ever compares them for equality), and a failing
`os.path.getmtime` call as a file whose `stat` field is `none`.
-/

namespace FileIndex

/-- The `files` table: one row per path, `(path, mtime)`. -/
abbrev DB := List (String × Int)

/-- Point lookup by path, as the Python dict access `existing[path]`
(the dict is built from `SELECT path, mtime FROM files`, line 118-119). -/
def dbFind? (db : DB) (p : String) : Option Int :=
  (db.find? (fun r => r.1 == p)).map (fun r => r.2)

/-- Membership test by path, as the Python `path in existing` (line 154). -/
def dbHas (db : DB) (p : String) : Bool :=
  (db.find? (fun r => r.1 == p)).isSome

/-- `UPDATE files SET mtime=? WHERE path=?` (line 157): every row whose key
is `p` gets mtime `m`; all other rows are untouched. -/
def dbUpdate (db : DB) (p : String) (m : Int) : DB :=
  db.map (fun r => if r.1 == p then (r.1, m) else r)

/-- `DELETE FROM files WHERE path=?` (line 172): removes every row keyed `p`. -/
def dbDelete (db : DB) (p : String) : DB :=
  db.filter (fun r => r.1 != p)

/-- ASCII lower-casing of a string, character by character — what both
`str.lower()` (line 91, 138) and SQLite's default case folding do on the
ASCII range (the Python version also folds non-ASCII letters; no claim
depends on those). -/
def lowerStr (s : String) : String :=
  String.mk (s.data.map Char.toLower)

/-- `os.path.join root f` for a relative component `f` (posix rules for the
two-argument case): an absolute `f` replaces `root`; otherwise the parts are
joined with a single `/`. -/
def pathJoin (root f : String) : String :=
  if f.data.head? = some '/' then f
  else if root = "" || root.data.getLast? = some '/' then root ++ f
  else root ++ "/" ++ f

/-- Index of the last occurrence of `c` in `cs`, if any. -/
def lastIdxOf (c : Char) (cs : List Char) : Option Nat :=
  match cs.reverse.findIdx? (fun x => x == c) with
  | none => none
  | some k => some (cs.length - 1 - k)

/-- The extension component of `os.path.splitext p` (line 137): the suffix
from the last `.` on, provided that dot lies after the last `/` and at least
one character strictly between the last `/` and that dot is not itself a dot
(posixpath treats leading dots of the basename as part of the name, so
`.bashrc` has no extension). -/
def splitextExt (p : String) : String :=
  let cs := p.data
  let sepIdx : Int := match lastIdxOf '/' cs with | none => -1 | some i => (i : Int)
  match lastIdxOf '.' cs with
  | none => ""
  | some d =>
    let s1 : Nat := (sepIdx + 1).toNat
    if sepIdx < (d : Int) && ((cs.drop s1).take (d - s1)).any (fun x => x != '.')
    then String.mk (cs.drop d) else ""

/-- Normalisation of one configured extension (lines 91-92):
`ext.lower() if ext.startswith('.') else f'.{ext.lower()}'`. -/
def normalizeExt (ext : String) : String :=
  if ext.data.head? = some '.' then lowerStr ext else "." ++ lowerStr ext

/-- `tryDrops f s` is true when `f` accepts some suffix of `s` (including
`s` itself and the empty suffix).  Helper giving the `*` / `%` wildcard its
"match any run of characters" meaning. -/
def tryDrops (f : List Char → Bool) : List Char → Bool
  | [] => f []
  | s@(_ :: cs) => f s || tryDrops f cs

/-- `fnmatch.fnmatch` pattern matching (lines 130 and 144), first argument
the pattern, second the name: anchored at both ends, `*` matches any run of
characters, `?` matches any single character, any other character matches
itself (on posix `os.path.normcase` is the identity, so matching is
case-sensitive; the claims do not exercise `[...]` character classes, which
this model leaves out). -/
def globMatch : List Char → List Char → Bool
  | [], s => s.isEmpty
  | pc :: ps, s =>
    if pc == '*' then tryDrops (fun u => globMatch ps u) s
    else
      match s with
      | [] => false
      | c :: cs => (pc == '?' || pc == c) && globMatch ps cs

/-- `fnmatch.fnmatch(name, pattern)` on strings. -/
def fnmatch (name pattern : String) : Bool :=
  globMatch pattern.data name.data

/-- SQLite `LIKE` matching (default, no ESCAPE clause), first argument the
pattern, second the text: `%` matches any run of characters, `_` matches any
single character, and any other character matches case-insensitively for
ASCII letters only (SQLite folds only A-Z unless ICU is loaded, exactly what
`Char.toLower` does). -/
def likeMatch : List Char → List Char → Bool
  | [], s => s.isEmpty
  | pc :: ps, s =>
    if pc == '%' then tryDrops (fun u => likeMatch ps u) s
    else
      match s with
      | [] => false
      | c :: cs => (pc == '_' || pc.toLower == c.toLower) && likeMatch ps cs

/-- SQLite `path LIKE pattern` on strings. -/
def sqlLike (pattern s : String) : Bool :=
  likeMatch pattern.data s.data

/-- Spec-side notion (not from the code): `litPrefx n h` is true when the
character list `n` is literally the first part of `h`. -/
def litPrefx : List Char → List Char → Bool
  | [], _ => true
  | _ :: _, [] => false
  | a :: as, b :: bs => a == b && litPrefx as bs

/-- Spec-side notion (not from the code): `litSub n h` is true when `n`
occurs somewhere in `h` as a contiguous run. -/
def litSub (needle : List Char) : List Char → Bool
  | [] => needle.isEmpty
  | h@(_ :: bs) => litPrefx needle h || litSub needle bs

/-- Spec-side notion: `needle` appears in `hay` as a contiguous literal
substring (case-sensitive, no wildcards) — the reading of "appears as a
contiguous literal substring" in the search claims. -/
def litSubstr (needle hay : String) : Bool :=
  litSub needle.data hay.data

/-- Spec-side notion: `needle` appears in `hay` as a contiguous substring
up to ASCII case folding. -/
def ciSubstr (needle hay : String) : Bool :=
  litSub (needle.data.map Char.toLower) (hay.data.map Char.toLower)

/-- A node of the scanned directory tree.  A `file` carries the result of
`os.path.getmtime`: `some m` when the call returns mtime `m`, `none` when it
raises (permission error, race-deleted file, ...; lines 148-166). -/
inductive Entry where
  | file (name : String) (stat : Option Int)
  | dir (name : String) (entries : List Entry)
deriving Repr

/-- One file reached by the traversal: the directory path `os.walk` reported
it under, its base name, and its `getmtime` outcome. -/
structure FileVisit where
  root : String
  name : String
  stat : Option Int
deriving DecidableEq, Repr

/-- `os.path.join(root, f)` for a visited file (line 134). -/
def visitPath (v : FileVisit) : String :=
  pathJoin v.root v.name

/-- The `files` component of one `os.walk` triple: the regular files of a
directory, in listing order. -/
def filesOf (entries : List Entry) : List (String × Option Int) :=
  entries.filterMap (fun e =>
    match e with
    | .file n s => some (n, s)
    | .dir _ _ => none)

/-- The effective exclusion rule set, after the enable switch and extension
normalisation (lines 84-92) have been applied. -/
structure Rules where
  exts : List String
  pats : List String
  dirPats : List String
deriving Repr

/-- Directory pruning test (line 130): the directory's base name matches
some configured pattern. -/
def dirExcluded (dirPats : List String) (d : String) : Bool :=
  dirPats.any (fun pattern => fnmatch d pattern)

/-- File exclusion test (lines 136-146): the lower-cased extension of the
full path is a configured extension, or the base name matches a configured
glob pattern; either alone suffices and both bump the same counter. -/
def fileExcluded (ru : Rules) (v : FileVisit) : Bool :=
  ru.exts.contains (lowerStr (splitextExt (visitPath v)))
    || ru.pats.any (fun pattern => fnmatch v.name pattern)

mutual
/-- The files visited by `os.walk(root)` (line 127) over `entries`, in
traversal order: a directory's own files first (lines 132-166 run before
`os.walk` descends), then the contents of each non-pruned subdirectory,
depth-first.  Subdirectories whose base name matches a `dirPats` pattern are
removed from the walk in place (line 130) and never descended into. -/
def walkVisits (dp : List String) (root : String) (entries : List Entry) :
    List FileVisit :=
  (filesOf entries).map (fun fs => ⟨root, fs.1, fs.2⟩) ++ walkSub dp root entries
termination_by sizeOf entries + 1

/-- The visits contributed by the subdirectories among `entries`. -/
def walkSub (dp : List String) (root : String) : List Entry → List FileVisit
  | [] => []
  | .file _ _ :: es => walkSub dp root es
  | .dir n ch :: es =>
    (if dirExcluded dp n then [] else walkVisits dp (pathJoin root n) ch)
      ++ walkSub dp root es
termination_by es => sizeOf es
end

/-- `PruneAt dp es es'` holds when `es'` is the entry list `es` with a
single directory entry whose base name matches a pattern of `dp` deleted —
the matching directory may sit directly in `es` (`here`) or nested inside a
subdirectory at any depth (`inside`).  This is the shape of "a tree
containing a matching directory, and the same tree without it", against
which pruning (line 130) is stated for matching directories anywhere in the
tree. -/
inductive PruneAt (dp : List String) : List Entry → List Entry → Prop where
  | here (es₁ : List Entry) (n : String) (ch : List Entry)
      (es₂ : List Entry) (h : dirExcluded dp n = true) :
      PruneAt dp (es₁ ++ Entry.dir n ch :: es₂) (es₁ ++ es₂)
  | inside (es₁ : List Entry) (n : String) (ch ch' : List Entry)
      (es₂ : List Entry) (h : PruneAt dp ch ch') :
      PruneAt dp (es₁ ++ Entry.dir n ch :: es₂)
        (es₁ ++ Entry.dir n ch' :: es₂)

/-- The mutable state of the scan loop (lines 121-124): the current table
contents plus the `scanned` set, `errors` list (modelled by the offending
paths) and the `excluded` counter, together with counts of the UPDATE and
INSERT statements actually executed. -/
structure ScanState where
  db : DB
  scanned : List String
  errors : List String
  excluded : Nat
  updates : Nat
  inserts : Nat
deriving DecidableEq, Repr

/-- The body of the per-file loop (lines 132-166) for one visited file.
Exclusion checks run first (no stat happens for an excluded file); then
`getmtime`: on failure an error is recorded and nothing else happens; on
success the path joins the `scanned` set and the table is reconciled —
update when the stored mtime differs, insert when the path is new.  A
duplicate INSERT for a path already inserted in this run would raise
`sqlite3.IntegrityError` (path is the primary key), which the inner
`except Exception` (line 164) turns into one more recorded error. -/
def processFile (ru : Rules) (existing : DB) (st : ScanState) (v : FileVisit) :
    ScanState :=
  let path := visitPath v
  if fileExcluded ru v then
    { st with excluded := st.excluded + 1 }
  else
    match v.stat with
    | none => { st with errors := st.errors ++ [path] }
    | some m =>
      let st1 := { st with scanned :=
        if path ∈ st.scanned then st.scanned else st.scanned ++ [path] }
      match dbFind? existing path with
      | some old =>
        if old ≠ m then
          { st1 with db := dbUpdate st1.db path m, updates := st1.updates + 1 }
        else st1
      | none =>
        if dbHas st1.db path then { st1 with errors := st1.errors ++ [path] }
        else { st1 with db := st1.db ++ [(path, m)], inserts := st1.inserts + 1 }

/-- The whole scan loop: the per-file body folded over the visits of the
walk, starting from the table contents loaded at line 118-119. -/
def scanFold (ru : Rules) (db0 : DB) (vs : List FileVisit) : ScanState :=
  vs.foldl (processFile ru db0) ⟨db0, [], [], 0, 0, 0⟩

/-- The deletion pass (lines 168-173): every baseline path not in the
`scanned` set is deleted from the table and counted. -/
def deleteUnscanned (existing : DB) (scanned : List String) (acc : DB × Nat) :
    DB × Nat :=
  existing.foldl
    (fun a row => if row.1 ∈ scanned then a else (dbDelete a.1 row.1, a.2 + 1))
    acc

/-- What `index_files` leaves behind: its boolean return value, the table
contents after the run, and the summary quantities it reports (lines
183-194), plus the executed UPDATE / INSERT counts. -/
structure SyncResult where
  ok : Bool
  db : DB
  scannedCount : Nat
  deleted : Nat
  excluded : Nat
  errors : List String
  updates : Nat
  inserts : Nat
deriving DecidableEq, Repr

/-- The state of the configured root path, as tested by `os.path.exists`
(line 94) and `os.path.isdir` (line 99): absent, present but not a
directory, or a directory with the given listing. -/
inductive RootFS where
  | missing
  | notDir
  | dir (entries : List Entry)

/-- Lines 84-88: with exclusions disabled every rule list is cleared. -/
def effPats (ep : List String) (en : Bool) : List String :=
  if en then ep else []

/-- Lines 84-88 for the directory patterns. -/
def effDirPats (ed : List String) (en : Bool) : List String :=
  if en then ed else []

/-- Lines 84-92: the extension list is cleared when disabled, then
normalised to lower-case dot-prefixed form. -/
def effExts (ee : List String) (en : Bool) : List String :=
  (if en then ee else []).map normalizeExt

/-- The effective rule set used by one run. -/
def mkRules (ee ep ed : List String) (en : Bool) : Rules :=
  ⟨effExts ee en, effPats ep en, effDirPats ed en⟩

/-- `index_files(dataset_path, db_name, ...)` (lines 60-203).  The root
checks (lines 93-101) run before the database is even opened, so a missing
or non-directory root returns False with the table untouched.  Otherwise
the table is read into `existing`, the walk runs the per-file body over
every visited file, the deletion pass removes unscanned baseline paths, and
the commit makes the new table contents durable.  (The outer
`except sqlite3.Error` path, which would return False leaving whatever the
adapter committed, injects no behaviour of its own and is not modelled as a
separate outcome; the connection lifecycle on that path is modelled
separately by `index_files_events`.) -/
def index_files (dataset_path : String) (root : RootFS) (db0 : DB)
    (exclude_extensions exclude_patterns exclude_directories : List String)
    (enable_exclusions : Bool) : SyncResult :=
  match root with
  | .missing => ⟨false, db0, 0, 0, 0, [], 0, 0⟩
  | .notDir => ⟨false, db0, 0, 0, 0, [], 0, 0⟩
  | .dir entries =>
    let ru := mkRules exclude_extensions exclude_patterns exclude_directories
      enable_exclusions
    let st := scanFold ru db0 (walkVisits ru.dirPats dataset_path entries)
    let del := deleteUnscanned db0 st.scanned (st.db, 0)
    ⟨true, del.1, st.scanned.length, del.2, st.excluded, st.errors,
      st.updates, st.inserts⟩

/-- `find_files(keywords, db_name)` (lines 206-245), returning the selected
paths, or `none` where the Python function returns None.  With at least one
keyword the query is `SELECT path FROM files WHERE path LIKE ? AND ...`,
one `%keyword%` parameter per keyword: the rows whose path satisfies every
LIKE condition, in table order.  With an empty keyword list the comma-join
of zero conditions leaves `SELECT path FROM files WHERE ` — a SQL syntax
error, so `c.execute` raises `sqlite3.OperationalError`, a subclass of
`sqlite3.Error`, and the handler at line 240 returns None. -/
def find_files (keywords : List String) (db : DB) : Option (List String) :=
  if keywords.isEmpty then none
  else
    some ((db.filter (fun row =>
      keywords.all (fun kw => sqlLike ("%" ++ kw ++ "%") row.1))).map (fun r => r.1))

/-- Storage-connection lifecycle events. -/
inductive DbEvent where
  | connect
  | close
deriving DecidableEq, Repr

/-- Control-flow model of the connection lifecycle in `index_files` (lines
103-203): `sqlite3.connect` at line 108, work, then `db.close()` at line
177 — but the `try` block has no `finally` and no `with`, so when a
`sqlite3.Error` (or any other exception) is raised after the connection
opened, the `except` handlers at lines 198-203 return False without ever
closing it.  `storageFails` says whether such an exception occurs between
open and close. -/
def index_files_events (storageFails : Bool) : List DbEvent :=
  if storageFails then [DbEvent.connect] else [DbEvent.connect, DbEvent.close]

/-- Same for `find_files` (lines 218-245): `sqlite3.connect` at line 220,
`db.close()` at line 237 only on the success path; the handlers at lines
240-245 return None without closing. -/
def find_files_events (storageFails : Bool) : List DbEvent :=
  if storageFails then [DbEvent.connect] else [DbEvent.connect, DbEvent.close]

/-- A visited file that enters the `scanned` set: not excluded and its
mtime was read successfully (lines 148-160). -/
def okVisit (ru : Rules) (v : FileVisit) : Bool :=
  !fileExcluded ru v && v.stat.isSome

/-- A visited file that lands in the error list: not excluded but its
mtime read failed (lines 161-166). -/
def errVisit (ru : Rules) (v : FileVisit) : Bool :=
  !fileExcluded ru v && v.stat.isNone

/-- A visit that executes the UPDATE at line 157: scanned, already in the
baseline, stored mtime different. -/
def isUpdateVisit (ru : Rules) (db0 : DB) (v : FileVisit) : Bool :=
  okVisit ru v &&
    (match dbFind? db0 (visitPath v), v.stat with
     | some old, some m => old != m
     | _, _ => false)

/-- A visit that executes the INSERT at line 160: scanned and absent from
the baseline. -/
def isInsertVisit (ru : Rules) (db0 : DB) (v : FileVisit) : Bool :=
  okVisit ru v && !dbHas db0 (visitPath v)

/-- A surviving row of the deletion pass: its path was scanned, or it was
not a baseline path at all (only baseline paths are examined for deletion). -/
def keepRow (existing : DB) (scanned : List String) (r : String × Int) : Bool :=
  decide (r.1 ∈ scanned) || !decide (r.1 ∈ existing.map Prod.fst)

/-- Everything the scan loop guarantees about its state after processing
the visit list `l`, starting from baseline `db0` (assuming, as the PRIMARY
KEY constraint and a real filesystem guarantee, duplicate-free baseline
keys and visit paths). -/
structure ScanInv (ru : Rules) (db0 : DB) (l : List FileVisit)
    (st : ScanState) : Prop where
  scanned_eq : st.scanned = (l.filter (okVisit ru)).map visitPath
  errors_eq : st.errors = (l.filter (errVisit ru)).map visitPath
  excluded_eq : st.excluded = (l.filter (fileExcluded ru)).length
  updates_eq : st.updates = (l.filter (isUpdateVisit ru db0)).length
  inserts_eq : st.inserts = (l.filter (isInsertVisit ru db0)).length
  keys_eq : st.db.map Prod.fst
    = db0.map Prod.fst ++ (l.filter (isInsertVisit ru db0)).map visitPath
  find_mem : ∀ v ∈ l, okVisit ru v = true →
    dbFind? st.db (visitPath v) = v.stat
  find_other : ∀ p, (∀ v ∈ l, okVisit ru v = true → visitPath v ≠ p) →
    dbFind? st.db p = dbFind? db0 p

/-! Basic facts about the association-list model of the `files` table. -/

theorem dbFind?_nil (p : String) : dbFind? [] p = none := rfl

theorem dbFind?_cons (r : String × Int) (rest : DB) (p : String) :
    dbFind? (r :: rest) p = if r.1 = p then some r.2 else dbFind? rest p := by
  unfold dbFind?
  by_cases h : r.1 = p
  · rw [List.find?_cons_of_pos _ (by simpa using h), if_pos h]
    rfl
  · rw [List.find?_cons_of_neg _ (by simpa using h), if_neg h]

theorem dbHas_eq_isSome (db : DB) (p : String) :
    dbHas db p = (dbFind? db p).isSome := by
  unfold dbFind? dbHas
  cases db.find? (fun r => r.1 == p) <;> rfl

theorem dbHas_iff_mem (db : DB) (p : String) :
    dbHas db p = true ↔ p ∈ db.map Prod.fst := by
  induction db with
  | nil => simp [dbHas]
  | cons r rest ih =>
    rw [dbHas_eq_isSome, dbFind?_cons, List.map_cons, List.mem_cons]
    by_cases h : r.1 = p
    · simp [h]
    · rw [if_neg h, ← dbHas_eq_isSome, ih]
      constructor
      · exact Or.inr
      · rintro (hq | hq)
        · exact absurd hq.symm h
        · exact hq

theorem dbFind?_eq_none_iff (db : DB) (p : String) :
    dbFind? db p = none ↔ p ∉ db.map Prod.fst := by
  rw [← dbHas_iff_mem, dbHas_eq_isSome]
  cases dbFind? db p <;> simp

theorem dbFind?_append (db1 db2 : DB) (p : String) :
    dbFind? (db1 ++ db2) p =
      match dbFind? db1 p with
      | some m => some m
      | none => dbFind? db2 p := by
  induction db1 with
  | nil => simp [dbFind?_nil]
  | cons r rest ih =>
    rw [List.cons_append, dbFind?_cons, dbFind?_cons]
    by_cases h : r.1 = p <;> simp [h, ih]

theorem dbUpdate_cons (r : String × Int) (rest : DB) (p : String) (m : Int) :
    dbUpdate (r :: rest) p m =
      (if r.1 = p then (r.1, m) else r) :: dbUpdate rest p m := by
  unfold dbUpdate
  rw [List.map_cons]
  by_cases h : r.1 = p
  · rw [if_pos (by simpa using h), if_pos h]
  · rw [if_neg (by simpa using h), if_neg h]

theorem keys_dbUpdate (db : DB) (p : String) (m : Int) :
    (dbUpdate db p m).map Prod.fst = db.map Prod.fst := by
  induction db with
  | nil => rfl
  | cons r rest ih =>
    rw [dbUpdate_cons, List.map_cons, List.map_cons, ih]
    by_cases h : r.1 = p
    · rw [if_pos h]
    · rw [if_neg h]

theorem dbFind?_update_self (db : DB) (p : String) (m : Int)
    (h : dbHas db p = true) : dbFind? (dbUpdate db p m) p = some m := by
  induction db with
  | nil => simp [dbHas] at h
  | cons r rest ih =>
    rw [dbHas_eq_isSome, dbFind?_cons] at h
    rw [dbUpdate_cons]
    by_cases hr : r.1 = p
    · rw [if_pos hr, dbFind?_cons, if_pos hr]
    · rw [if_neg hr, dbFind?_cons, if_neg hr]
      rw [if_neg hr, ← dbHas_eq_isSome] at h
      exact ih h

theorem dbFind?_update_ne (db : DB) (p q : String) (m : Int) (h : q ≠ p) :
    dbFind? (dbUpdate db p m) q = dbFind? db q := by
  induction db with
  | nil => rfl
  | cons r rest ih =>
    rw [dbUpdate_cons, dbFind?_cons, dbFind?_cons]
    by_cases hr : r.1 = p
    · have hq : ¬ ((if r.1 = p then (r.1, m) else r).1 = q) := by
        rw [if_pos hr]
        exact fun hc => h (hc ▸ hr.symm ▸ rfl)
      rw [if_neg hq, if_neg (fun hc : r.1 = q => h (hc ▸ hr.symm ▸ rfl)), ih]
    · rw [if_neg hr]
      by_cases hq : r.1 = q
      · rw [if_pos hq, if_pos hq]
      · rw [if_neg hq, if_neg hq, ih]

theorem mem_iff_dbFind? (db : DB) (hnd : (db.map Prod.fst).Nodup)
    (p : String) (m : Int) : (p, m) ∈ db ↔ dbFind? db p = some m := by
  induction db with
  | nil => simp [dbFind?_nil]
  | cons r rest ih =>
    rw [List.map_cons, List.nodup_cons] at hnd
    rw [dbFind?_cons, List.mem_cons]
    by_cases h : r.1 = p
    · rw [if_pos h]
      constructor
      · rintro (hm | hm)
        · rw [← hm]
        · exact absurd (h ▸ List.mem_map_of_mem Prod.fst hm) hnd.1
      · intro hf
        left
        have h2 : r.2 = m := by simpa using hf
        rw [← h, ← h2]
    · rw [if_neg h]
      constructor
      · rintro (hm | hm)
        · exact absurd (congrArg Prod.fst hm.symm) h
        · exact (ih hnd.2).mp hm
      · intro hf
        exact Or.inr ((ih hnd.2).mpr hf)

theorem dbFind?_filter (db : DB) (q : String × Int → Bool) (p : String)
    (h : ∀ r ∈ db, r.1 = p → q r = true) :
    dbFind? (db.filter q) p = dbFind? db p := by
  induction db with
  | nil => rfl
  | cons r rest ih =>
    have ih' := ih (fun x hx => h x (List.mem_cons_of_mem r hx))
    rw [List.filter_cons]
    by_cases hr : r.1 = p
    · rw [if_pos (h r (List.mem_cons_self r rest) hr), dbFind?_cons,
        dbFind?_cons, if_pos hr, if_pos hr]
    · cases hq : q r
      · simp only [Bool.false_eq_true, if_false]
        rw [ih', dbFind?_cons, if_neg hr]
      · simp only [if_true]
        rw [dbFind?_cons, dbFind?_cons, if_neg hr, if_neg hr, ih']

theorem keys_filter_sublist (db : DB) (q : String × Int → Bool) :
    ((db.filter q).map Prod.fst).Sublist (db.map Prod.fst) :=
  List.Sublist.map Prod.fst (List.filter_sublist db)

/-- Members of a duplicate-free mapped list with equal images are equal. -/
theorem nodup_map_mem_inj {α β : Type} {f : α → β} {l : List α}
    (h : (l.map f).Nodup) {x y : α} (hx : x ∈ l) (hy : y ∈ l)
    (hf : f x = f y) : x = y := by
  induction l with
  | nil => cases hx
  | cons a tl ih =>
    rw [List.map_cons, List.nodup_cons] at h
    rw [List.mem_cons] at hx hy
    rcases hx with hx | hx <;> rcases hy with hy | hy
    · rw [hx, hy]
    · rw [hx] at hf ⊢
      exact absurd (hf ▸ List.mem_map_of_mem f hy) h.1
    · rw [hy] at hf ⊢
      exact absurd (hf ▸ List.mem_map_of_mem f hx) h.1
    · exact ih h.2 hx hy

/-! The scan-loop invariant. -/

theorem filter_append_single (q : FileVisit → Bool) (l : List FileVisit)
    (v : FileVisit) :
    (l ++ [v]).filter q = l.filter q ++ if q v then [v] else [] := by
  rw [List.filter_append, List.filter_cons, List.filter_nil]

theorem filter_append_pos {q : FileVisit → Bool} (l : List FileVisit)
    {v : FileVisit} (h : q v = true) :
    (l ++ [v]).filter q = l.filter q ++ [v] := by
  rw [filter_append_single, if_pos h]

theorem filter_append_neg {q : FileVisit → Bool} (l : List FileVisit)
    {v : FileVisit} (h : q v = false) :
    (l ++ [v]).filter q = l.filter q := by
  rw [filter_append_single, if_neg (by simp [h]), List.append_nil]

theorem scanFold_append (ru : Rules) (db0 : DB) (l : List FileVisit)
    (v : FileVisit) :
    scanFold ru db0 (l ++ [v]) = processFile ru db0 (scanFold ru db0 l) v := by
  unfold scanFold
  rw [List.foldl_append, List.foldl_cons, List.foldl_nil]

theorem ScanInv.step (ru : Rules) (db0 : DB)
    {l : List FileVisit} {st : ScanState}
    (inv : ScanInv ru db0 l st) (v : FileVisit)
    (hv : visitPath v ∉ l.map visitPath) :
    ScanInv ru db0 (l ++ [v]) (processFile ru db0 st v) := by
  have hne : ∀ v' ∈ l, visitPath v' ≠ visitPath v := by
    intro v' hv' hc
    exact hv (hc ▸ List.mem_map_of_mem visitPath hv')
  have hmem_l : ∀ {q : FileVisit → Bool} {p}, p ∈ (l.filter q).map visitPath →
      p ∈ l.map visitPath := by
    intro q p hp
    exact List.map_subset visitPath (List.filter_sublist l).subset hp
  by_cases hex : fileExcluded ru v = true
  · -- the file is excluded: only the counter moves (lines 136-146)
    have hok : okVisit ru v = false := by simp [okVisit, hex]
    have herr : errVisit ru v = false := by simp [errVisit, hex]
    have hupd : isUpdateVisit ru db0 v = false := by simp [isUpdateVisit, hok]
    have hins : isInsertVisit ru db0 v = false := by simp [isInsertVisit, hok]
    simp only [processFile, hex, if_true]
    exact {
      scanned_eq := by rw [filter_append_neg l hok]; exact inv.scanned_eq
      errors_eq := by rw [filter_append_neg l herr]; exact inv.errors_eq
      excluded_eq := by
        rw [filter_append_pos l hex, List.length_append, inv.excluded_eq]
        rfl
      updates_eq := by rw [filter_append_neg l hupd]; exact inv.updates_eq
      inserts_eq := by rw [filter_append_neg l hins]; exact inv.inserts_eq
      keys_eq := by rw [filter_append_neg l hins]; exact inv.keys_eq
      find_mem := by
        intro v' hv' hok'
        rcases List.mem_append.mp hv' with h | h
        · exact inv.find_mem v' h hok'
        · rw [List.mem_singleton.mp h] at hok'
          rw [hok] at hok'
          cases hok'
      find_other := by
        intro p hp
        exact inv.find_other p (fun v' h => hp v' (List.mem_append_left _ h)) }
  · have hex' : fileExcluded ru v = false := by
      cases h : fileExcluded ru v
      · rfl
      · exact absurd h hex
    cases hstat : v.stat with
    | none =>
      -- getmtime raised: record the error, touch nothing else (lines 161-166)
      have hok : okVisit ru v = false := by simp [okVisit, hstat]
      have herr : errVisit ru v = true := by simp [errVisit, hex', hstat]
      have hupd : isUpdateVisit ru db0 v = false := by simp [isUpdateVisit, hok]
      have hins : isInsertVisit ru db0 v = false := by simp [isInsertVisit, hok]
      simp only [processFile, hex', Bool.false_eq_true, if_false, hstat]
      exact {
        scanned_eq := by rw [filter_append_neg l hok]; exact inv.scanned_eq
        errors_eq := by
          rw [filter_append_pos l herr, List.map_append, inv.errors_eq]
          rfl
        excluded_eq := by rw [filter_append_neg l hex']; exact inv.excluded_eq
        updates_eq := by rw [filter_append_neg l hupd]; exact inv.updates_eq
        inserts_eq := by rw [filter_append_neg l hins]; exact inv.inserts_eq
        keys_eq := by rw [filter_append_neg l hins]; exact inv.keys_eq
        find_mem := by
          intro v' hv' hok'
          rcases List.mem_append.mp hv' with h | h
          · exact inv.find_mem v' h hok'
          · rw [List.mem_singleton.mp h] at hok'
            rw [hok] at hok'
            cases hok'
        find_other := by
          intro p hp
          exact inv.find_other p (fun v' h => hp v' (List.mem_append_left _ h)) }
    | some m =>
      have hok : okVisit ru v = true := by simp [okVisit, hex', hstat]
      have herr : errVisit ru v = false := by simp [errVisit, hstat]
      have hmem : visitPath v ∉ st.scanned := by
        rw [inv.scanned_eq]
        exact fun hc => hv (hmem_l hc)
      have hfo : dbFind? st.db (visitPath v) = dbFind? db0 (visitPath v) :=
        inv.find_other (visitPath v) (fun v' h _ => hne v' h)
      have hfm : ∀ v' ∈ l, okVisit ru v' = true →
          dbFind? st.db (visitPath v') = v'.stat := inv.find_mem
      cases hfind : dbFind? db0 (visitPath v) with
      | some old =>
        have hhas0 : dbHas db0 (visitPath v) = true := by
          rw [dbHas_eq_isSome, hfind]
          rfl
        have hins : isInsertVisit ru db0 v = false := by
          simp [isInsertVisit, hhas0]
        by_cases hm : old = m
        -- unchanged mtime: pure no-op besides the scanned set (line 156)
        case pos =>

          have hupd : isUpdateVisit ru db0 v = false := by
            simp [isUpdateVisit, hfind, hstat, hm]
          simp only [processFile, hex', Bool.false_eq_true, if_false, hstat,
            hfind, hmem, if_neg hmem, ne_eq, hm, not_true_eq_false]
          exact {
            scanned_eq := by
              rw [filter_append_pos l hok, List.map_append, inv.scanned_eq]
              rfl
            errors_eq := by rw [filter_append_neg l herr]; exact inv.errors_eq
            excluded_eq := by rw [filter_append_neg l hex']; exact inv.excluded_eq
            updates_eq := by rw [filter_append_neg l hupd]; exact inv.updates_eq
            inserts_eq := by rw [filter_append_neg l hins]; exact inv.inserts_eq
            keys_eq := by rw [filter_append_neg l hins]; exact inv.keys_eq
            find_mem := by
              intro v' hv' hok'
              rcases List.mem_append.mp hv' with h | h
              · exact hfm v' h hok'
              · rw [List.mem_singleton.mp h]
                rw [hfo, hfind, hstat, hm]
            find_other := by
              intro p hp
              exact inv.find_other p
                (fun v' h hk => hp v' (List.mem_append_left _ h) hk) }
        case neg =>
          -- changed mtime: UPDATE executes (line 157)
          have hupd : isUpdateVisit ru db0 v = true := by
            simp [isUpdateVisit, okVisit, hex', hfind, hstat, hm]
          have hhas : dbHas st.db (visitPath v) = true := by
            rw [dbHas_iff_mem, inv.keys_eq]
            exact List.mem_append_left _ ((dbHas_iff_mem db0 _).mp hhas0)
          simp only [processFile, hex', Bool.false_eq_true, if_false, hstat,
            hfind, if_neg hmem, ne_eq, hm, not_false_eq_true, if_true]
          exact {
            scanned_eq := by
              rw [filter_append_pos l hok, List.map_append, inv.scanned_eq]
              rfl
            errors_eq := by rw [filter_append_neg l herr]; exact inv.errors_eq
            excluded_eq := by rw [filter_append_neg l hex']; exact inv.excluded_eq
            updates_eq := by
              rw [filter_append_pos l hupd, List.length_append, inv.updates_eq]
              rfl
            inserts_eq := by rw [filter_append_neg l hins]; exact inv.inserts_eq
            keys_eq := by
              rw [filter_append_neg l hins, keys_dbUpdate]
              exact inv.keys_eq
            find_mem := by
              intro v' hv' hok'
              rcases List.mem_append.mp hv' with h | h
              · rw [dbFind?_update_ne _ _ _ _ (hne v' h)]
                exact hfm v' h hok'
              · rw [List.mem_singleton.mp h]
                rw [dbFind?_update_self _ _ _ hhas, hstat]
            find_other := by
              intro p hp
              have hpv : visitPath v ≠ p :=
                hp v (List.mem_append_right _ (List.mem_singleton_self v)) hok
              rw [dbFind?_update_ne _ _ _ _ (Ne.symm hpv)]
              exact inv.find_other p
                (fun v' h hk => hp v' (List.mem_append_left _ h) hk) }
      | none =>
        -- new path: INSERT executes (line 160)
        have hhas0 : dbHas db0 (visitPath v) = false := by
          rw [dbHas_eq_isSome, hfind]
          rfl
        have hins : isInsertVisit ru db0 v = true := by
          simp [isInsertVisit, okVisit, hex', hstat, hhas0]
        have hupd : isUpdateVisit ru db0 v = false := by
          simp [isUpdateVisit, hfind]
        have hkey : visitPath v ∉ st.db.map Prod.fst := by
          rw [inv.keys_eq]
          intro hc
          rcases List.mem_append.mp hc with hc | hc
          · exact (dbFind?_eq_none_iff db0 _).mp hfind hc
          · exact hv (hmem_l hc)
        have hhas : dbHas st.db (visitPath v) = false := by
          cases h : dbHas st.db (visitPath v)
          · rfl
          · exact absurd ((dbHas_iff_mem _ _).mp h) hkey
        have hnone : dbFind? st.db (visitPath v) = none :=
          (dbFind?_eq_none_iff _ _).mpr hkey
        simp only [processFile, hex', Bool.false_eq_true, if_false, hstat,
          hfind, if_neg hmem, hhas]
        exact {
          scanned_eq := by
            rw [filter_append_pos l hok, List.map_append, inv.scanned_eq]
            rfl
          errors_eq := by rw [filter_append_neg l herr]; exact inv.errors_eq
          excluded_eq := by rw [filter_append_neg l hex']; exact inv.excluded_eq
          updates_eq := by rw [filter_append_neg l hupd]; exact inv.updates_eq
          inserts_eq := by
            rw [filter_append_pos l hins, List.length_append, inv.inserts_eq]
            rfl
          keys_eq := by
            rw [filter_append_pos l hins, List.map_append, List.map_append,
              inv.keys_eq, List.append_assoc]
            rfl
          find_mem := by
            intro v' hv' hok'
            rcases List.mem_append.mp hv' with h | h
            · rw [dbFind?_append]
              rw [hfm v' h hok']
              have hsome : v'.stat.isSome = true := by
                simp only [okVisit, Bool.and_eq_true] at hok'
                exact hok'.2
              rcases Option.isSome_iff_exists.mp hsome with ⟨m', hm'⟩
              rw [hm']
            · rw [List.mem_singleton.mp h]
              rw [dbFind?_append, hnone, dbFind?_cons, if_pos rfl, hstat]
          find_other := by
            intro p hp
            have hpv : visitPath v ≠ p :=
              hp v (List.mem_append_right _ (List.mem_singleton_self v)) hok
            rw [dbFind?_append]
            have hrest := inv.find_other p
              (fun v' h hk => hp v' (List.mem_append_left _ h) hk)
            rw [hrest]
            cases hdb : dbFind? db0 p with
            | some x => rfl
            | none => rw [dbFind?_cons, if_neg hpv]; rfl }

theorem scan_inv (ru : Rules) (db0 : DB) :
    ∀ l : List FileVisit, (l.map visitPath).Nodup →
      ScanInv ru db0 l (scanFold ru db0 l) := by
  intro l
  induction l using List.reverseRecOn with
  | nil =>
    intro _
    exact {
      scanned_eq := rfl
      errors_eq := rfl
      excluded_eq := rfl
      updates_eq := rfl
      inserts_eq := rfl
      keys_eq := by simp [scanFold]
      find_mem := by intro v hv; cases hv
      find_other := by intro p _; rfl }
  | append_singleton l v ih =>
    intro h
    rw [List.map_append] at h
    rcases List.nodup_append.mp h with ⟨hl, _, hdisj⟩
    have hv : visitPath v ∉ l.map visitPath := by
      intro hc
      exact hdisj hc (by simp)
    rw [scanFold_append]
    exact ScanInv.step ru db0 (ih hl) v hv

/-! The deletion pass and the shape of a successful run. -/

theorem deleteUnscanned_cons (r : String × Int) (rest : DB) (sc : List String)
    (acc : DB × Nat) :
    deleteUnscanned (r :: rest) sc acc =
      deleteUnscanned rest sc
        (if r.1 ∈ sc then acc else (dbDelete acc.1 r.1, acc.2 + 1)) := by
  unfold deleteUnscanned
  rw [List.foldl_cons]

theorem deleteUnscanned_fst (ex : DB) (sc : List String) :
    ∀ acc : DB × Nat,
      (deleteUnscanned ex sc acc).1 = acc.1.filter (keepRow ex sc) := by
  induction ex with
  | nil =>
    intro acc
    have h : ∀ x ∈ acc.1, keepRow ([] : DB) sc x = true := by
      intro x _
      simp [keepRow]
    rw [List.filter_eq_self.mpr h]
    rfl
  | cons r rest ih =>
    intro acc
    rw [deleteUnscanned_cons]
    by_cases h : r.1 ∈ sc
    · rw [if_pos h, ih]
      apply List.filter_congr
      intro x _
      by_cases hx : x.1 ∈ sc
      · simp [keepRow, hx]
      · by_cases hr : x.1 = r.1
        · rw [hr] at hx
          exact absurd h hx
        · simp [keepRow, hx, hr]
    · rw [if_neg h, ih]
      unfold dbDelete
      rw [List.filter_filter]
      apply List.filter_congr
      intro x _
      by_cases hr : x.1 = r.1
      · simp [keepRow, hr, h]
      · by_cases hx : x.1 ∈ sc <;>
          simp [keepRow, hx, hr, Bool.and_comm, bne]

theorem deleteUnscanned_snd (ex : DB) (sc : List String) :
    ∀ acc : DB × Nat,
      (deleteUnscanned ex sc acc).2
        = acc.2 + (ex.filter (fun r => !decide (r.1 ∈ sc))).length := by
  induction ex with
  | nil =>
    intro acc
    simp [deleteUnscanned]
  | cons r rest ih =>
    intro acc
    rw [deleteUnscanned_cons]
    by_cases h : r.1 ∈ sc
    · rw [if_pos h, ih, List.filter_cons, if_neg (by simp [h])]
    · rw [if_neg h, ih, List.filter_cons, if_pos (by simp [h]),
        List.length_cons]
      omega

/-- A successful run (`root` is a directory, lines 103-196) in terms of the
scan fold and the deletion pass. -/
theorem index_files_dir_eq (dataset_path : String) (entries : List Entry)
    (db0 : DB) (ee ep ed : List String) (en : Bool) :
    index_files dataset_path (RootFS.dir entries) db0 ee ep ed en =
      (let ru := mkRules ee ep ed en
       let st := scanFold ru db0 (walkVisits ru.dirPats dataset_path entries)
       let del := deleteUnscanned db0 st.scanned (st.db, 0)
       ⟨true, del.1, st.scanned.length, del.2, st.excluded, st.errors,
         st.updates, st.inserts⟩) := rfl

theorem scanFold_keys_nodup (ru : Rules) (db0 : DB)
    (hdb0 : (db0.map Prod.fst).Nodup) (l : List FileVisit)
    (hl : (l.map visitPath).Nodup) :
    ((scanFold ru db0 l).db.map Prod.fst).Nodup := by
  have inv := scan_inv ru db0 l hl
  rw [inv.keys_eq]
  refine List.Nodup.append hdb0
    (List.Nodup.sublist (List.Sublist.map visitPath (List.filter_sublist l)) hl)
    ?_
  intro a ha hb
  rcases List.mem_map.mp hb with ⟨v', hv', hpa⟩
  rcases List.mem_filter.mp hv' with ⟨_, hins⟩
  simp only [isInsertVisit, Bool.and_eq_true, Bool.not_eq_true'] at hins
  rw [hpa] at hins
  have hhas : dbHas db0 a = true := (dbHas_iff_mem db0 a).mpr ha
  rw [hins.2] at hhas
  cases hhas

theorem scanned_mem_iff (ru : Rules) (db0 : DB) (l : List FileVisit)
    (hl : (l.map visitPath).Nodup) (p : String) :
    p ∈ (scanFold ru db0 l).scanned ↔
      ∃ v, v ∈ l ∧ okVisit ru v = true ∧ visitPath v = p := by
  rw [(scan_inv ru db0 l hl).scanned_eq]
  constructor
  · intro hp
    rcases List.mem_map.mp hp with ⟨v, hv, hpv⟩
    rcases List.mem_filter.mp hv with ⟨hvl, hok⟩
    exact ⟨v, hvl, hok, hpv⟩
  · rintro ⟨v, hvl, hok, hpv⟩
    rw [← hpv]
    exact List.mem_map_of_mem visitPath (List.mem_filter.mpr ⟨hvl, hok⟩)

theorem final_keys_scanned (ru : Rules) (db0 : DB) (l : List FileVisit)
    (hl : (l.map visitPath).Nodup) (p : String)
    (hp : p ∈ ((scanFold ru db0 l).db.filter
        (keepRow db0 (scanFold ru db0 l).scanned)).map Prod.fst) :
    p ∈ (scanFold ru db0 l).scanned := by
  have inv := scan_inv ru db0 l hl
  rcases List.mem_map.mp hp with ⟨r, hr, hpr⟩
  rcases List.mem_filter.mp hr with ⟨hrdb, hkeep⟩
  unfold keepRow at hkeep
  rw [Bool.or_eq_true] at hkeep
  rcases hkeep with hk | hk
  · rw [← hpr]
    exact of_decide_eq_true hk
  · rw [Bool.not_eq_true', decide_eq_false_iff_not] at hk
    have hkeys : r.1 ∈ (scanFold ru db0 l).db.map Prod.fst :=
      List.mem_map_of_mem Prod.fst hrdb
    rw [inv.keys_eq] at hkeys
    rcases List.mem_append.mp hkeys with hkeys | hkeys
    · exact absurd hkeys hk
    · rcases List.mem_map.mp hkeys with ⟨v', hv', hpv⟩
      rcases List.mem_filter.mp hv' with ⟨hvl, hins⟩
      have hok : okVisit ru v' = true := by
        simp only [isInsertVisit, Bool.and_eq_true] at hins
        exact hins.1
      rw [inv.scanned_eq, ← hpr, ← hpv]
      exact List.mem_map_of_mem visitPath (List.mem_filter.mpr ⟨hvl, hok⟩)

/-! SQL LIKE semantics: wildcards, ASCII case folding, and the relation to
literal substring containment for wildcard-free keywords. -/

theorem char_toNat_ofNat {n : Nat} (h : n.isValidChar) :
    (Char.ofNat n).toNat = n := by
  unfold Char.ofNat
  rw [dif_pos h]
  rfl

theorem toLower_toNat_of_upper {c : Char} (h : 65 ≤ c.toNat ∧ c.toNat ≤ 90) :
    (Char.toLower c).toNat = c.toNat + 32 := by
  unfold Char.toLower
  rw [if_pos h]
  exact char_toNat_ofNat (Or.inl (by omega))

theorem toLower_eq_self {c : Char} (h : ¬(65 ≤ c.toNat ∧ c.toNat ≤ 90)) :
    Char.toLower c = c := by
  unfold Char.toLower
  rw [if_neg h]

theorem toLower_idem (c : Char) :
    Char.toLower (Char.toLower c) = Char.toLower c := by
  by_cases h : 65 ≤ c.toNat ∧ c.toNat ≤ 90
  · have h1 := toLower_toNat_of_upper h
    apply toLower_eq_self
    rw [h1]
    omega
  · rw [toLower_eq_self h]
    exact toLower_eq_self h

/-- `toLower` reaches a character outside both the upper and the lower ASCII
letter ranges only from that character itself. -/
theorem toLower_eq_iff_fix {c d : Char} (hd : ¬(65 ≤ d.toNat ∧ d.toNat ≤ 90))
    (hd2 : ¬(97 ≤ d.toNat ∧ d.toNat ≤ 122)) :
    Char.toLower c = d ↔ c = d := by
  constructor
  · intro h
    by_cases hc : 65 ≤ c.toNat ∧ c.toNat ≤ 90
    · have h1 := toLower_toNat_of_upper hc
      rw [h] at h1
      exact absurd (by omega : 97 ≤ d.toNat ∧ d.toNat ≤ 122) hd2
    · rw [toLower_eq_self hc] at h
      exact h
  · intro h
    rw [h]
    exact toLower_eq_self hd

theorem beq_toLower_percent (pc : Char) :
    (Char.toLower pc == '%') = (pc == '%') := by
  by_cases h : pc = '%'
  · rw [h]
    rfl
  · have h2 : Char.toLower pc ≠ '%' := by
      rw [Ne, toLower_eq_iff_fix (by decide) (by decide)]
      exact h
    simp [h, h2]

theorem beq_toLower_underscore (pc : Char) :
    (Char.toLower pc == '_') = (pc == '_') := by
  by_cases h : pc = '_'
  · rw [h]
    rfl
  · have h2 : Char.toLower pc ≠ '_' := by
      rw [Ne, toLower_eq_iff_fix (by decide) (by decide)]
      exact h
    simp [h, h2]

theorem tryDrops_congr (f g : List Char → Bool) (h : ∀ u, f u = g u) :
    ∀ s, tryDrops f s = tryDrops g s := by
  intro s
  induction s with
  | nil => exact h []
  | cons c cs ih => simp only [tryDrops, h, ih]

theorem tryDrops_iff (f : List Char → Bool) (s : List Char) :
    tryDrops f s = true ↔ ∃ t u, s = t ++ u ∧ f u = true := by
  induction s with
  | nil =>
    constructor
    · intro h
      exact ⟨[], [], rfl, h⟩
    · rintro ⟨t, u, hs, hf⟩
      rcases List.append_eq_nil.mp hs.symm with ⟨_, hu⟩
      rw [hu] at hf
      exact hf
  | cons c cs ih =>
    simp only [tryDrops, Bool.or_eq_true, ih]
    constructor
    · rintro (h | ⟨t, u, hs, hf⟩)
      · exact ⟨[], c :: cs, rfl, h⟩
      · exact ⟨c :: t, u, by rw [hs]; rfl, hf⟩
    · rintro ⟨t, u, hs, hf⟩
      cases t with
      | nil =>
        left
        rw [List.nil_append] at hs
        rw [hs]
        exact hf
      | cons a t' =>
        right
        rcases List.cons_eq_cons.mp hs with ⟨_, hcs⟩
        exact ⟨t', u, hcs, hf⟩

theorem likeMatch_percent (ps : List Char) (s : List Char) :
    likeMatch ('%' :: ps) s = tryDrops (fun u => likeMatch ps u) s := by
  simp [likeMatch]

theorem likeMatch_nonpercent_nil {pc : Char} (h : (pc == '%') = false)
    (ps : List Char) : likeMatch (pc :: ps) [] = false := by
  simp [likeMatch, h]

theorem likeMatch_nonpercent_cons {pc : Char} (h : (pc == '%') = false)
    (ps : List Char) (c : Char) (cs : List Char) :
    likeMatch (pc :: ps) (c :: cs)
      = ((pc == '_' || pc.toLower == c.toLower) && likeMatch ps cs) := by
  simp [likeMatch, h]

/-- Lowering the pattern does not change LIKE matching: `%` and `_` are
fixed points of `toLower` and literal characters are compared lower-cased
anyway. -/
theorem likeMatch_toLower_pattern (ps : List Char) :
    ∀ s, likeMatch (ps.map Char.toLower) s = likeMatch ps s := by
  induction ps with
  | nil => intro s; rfl
  | cons pc ps' ih =>
    intro s
    rw [List.map_cons]
    by_cases hpc : pc = '%'
    · subst hpc
      rw [show Char.toLower '%' = '%' from rfl, likeMatch_percent,
        likeMatch_percent]
      exact tryDrops_congr _ _ ih s
    · have h' : (pc == '%') = false := by simp [hpc]
      have hL : (Char.toLower pc == '%') = false := by
        rw [beq_toLower_percent]
        exact h'
      cases s with
      | nil => rw [likeMatch_nonpercent_nil hL, likeMatch_nonpercent_nil h']
      | cons c cs =>
        rw [likeMatch_nonpercent_cons hL, likeMatch_nonpercent_cons h',
          beq_toLower_underscore, toLower_idem, ih cs]

/-- Lowering the text does not change LIKE matching either. -/
theorem likeMatch_toLower_text (ps : List Char) :
    ∀ s, likeMatch ps (s.map Char.toLower) = likeMatch ps s := by
  induction ps with
  | nil =>
    intro s
    cases s <;> rfl
  | cons pc ps' ih =>
    intro s
    by_cases hpc : pc = '%'
    · subst hpc
      rw [likeMatch_percent, likeMatch_percent]
      induction s with
      | nil => rfl
      | cons c cs ihs =>
        simp only [List.map_cons, tryDrops]
        rw [show likeMatch ps' (Char.toLower c :: cs.map Char.toLower)
            = likeMatch ps' ((c :: cs).map Char.toLower) from rfl, ih (c :: cs),
          ihs]
    · have h' : (pc == '%') = false := by simp [hpc]
      cases s with
      | nil => rfl
      | cons c cs =>
        rw [List.map_cons, likeMatch_nonpercent_cons h',
          likeMatch_nonpercent_cons h', toLower_idem, ih cs]

/-- A wildcard-free keyword followed by a trailing `%` matches exactly the
texts beginning (case-folded) with that keyword. -/
theorem likeMatch_lit_trailing (kw : List Char)
    (hkw : ∀ c ∈ kw, c ≠ '%' ∧ c ≠ '_') :
    ∀ u, likeMatch (kw ++ ['%']) u
      = litPrefx (kw.map Char.toLower) (u.map Char.toLower) := by
  induction kw with
  | nil =>
    have hall : ∀ u : List Char, likeMatch ['%'] u = true := by
      intro u
      induction u with
      | nil => rfl
      | cons c cs ihc =>
        rw [likeMatch_percent, tryDrops, ← likeMatch_percent, ihc]
        simp [likeMatch]
    intro u
    rw [List.nil_append, hall u]
    rfl
  | cons k ks ih =>
    intro u
    have hk := hkw k (List.mem_cons_self k ks)
    have hks : ∀ c ∈ ks, c ≠ '%' ∧ c ≠ '_' :=
      fun c hc => hkw c (List.mem_cons_of_mem k hc)
    have h1 : (k == '%') = false := by simp [hk.1]
    have h2 : (k == '_') = false := by simp [hk.2]
    cases u with
    | nil =>
      rw [List.cons_append, likeMatch_nonpercent_nil h1]
      rfl
    | cons c cs =>
      rw [List.cons_append, likeMatch_nonpercent_cons h1, h2,
        Bool.false_or, List.map_cons, List.map_cons, litPrefx, ih hks cs]

/-- The pattern the query builds for a wildcard-free keyword —
`%keyword%` — matches exactly the texts containing the keyword as a
case-folded contiguous substring. -/
theorem likeMatch_wrapped (kw : List Char)
    (hkw : ∀ c ∈ kw, c ≠ '%' ∧ c ≠ '_') :
    ∀ s, likeMatch ('%' :: (kw ++ ['%'])) s
      = litSub (kw.map Char.toLower) (s.map Char.toLower) := by
  intro s
  induction s with
  | nil =>
    rw [likeMatch_percent, tryDrops, likeMatch_lit_trailing kw hkw []]
    cases kw <;> rfl
  | cons c cs ih =>
    have e1 : likeMatch ('%' :: (kw ++ ['%'])) (c :: cs)
        = (likeMatch (kw ++ ['%']) (c :: cs)
            || likeMatch ('%' :: (kw ++ ['%'])) cs) := by
      rw [likeMatch_percent, tryDrops, ← likeMatch_percent]
    rw [e1, likeMatch_lit_trailing kw hkw (c :: cs), ih, List.map_cons, litSub]

theorem sqlLike_wrapped_eq_ciSubstr (kw p : String)
    (hkw : ∀ c ∈ kw.data, c ≠ '%' ∧ c ≠ '_') :
    sqlLike ("%" ++ kw ++ "%") p = ciSubstr kw p := by
  unfold sqlLike ciSubstr
  have hd : ("%" ++ kw ++ "%").data = '%' :: (kw.data ++ ['%']) := by
    rw [String.data_append, String.data_append]
    rfl
  rw [hd]
  exact likeMatch_wrapped kw.data hkw p.data

theorem all_congr' (l : List String) (f g : String → Bool)
    (h : ∀ x ∈ l, f x = g x) : l.all f = l.all g := by
  induction l with
  | nil => rfl
  | cons a tl ih =>
    rw [List.all_cons, List.all_cons, h a (List.mem_cons_self a tl),
      ih (fun x hx => h x (List.mem_cons_of_mem a hx))]

theorem sqlLike_lower_keyword (kw p : String) :
    sqlLike ("%" ++ lowerStr kw ++ "%") p = sqlLike ("%" ++ kw ++ "%") p := by
  unfold sqlLike
  have h1 : ("%" ++ lowerStr kw ++ "%").data
      = ('%' :: (kw.data ++ ['%'])).map Char.toLower := by
    rw [String.data_append, String.data_append, List.map_cons, List.map_append]
    rfl
  have h2 : ("%" ++ kw ++ "%").data = '%' :: (kw.data ++ ['%']) := by
    rw [String.data_append, String.data_append]
    rfl
  rw [h1, h2, likeMatch_toLower_pattern]

/-! The claims. -/

/-- C7: if the configured root does not exist, or exists but is not a
directory, `index_files` fails — it returns False — and performs no storage
mutation whatsoever: the table contents after the call equal the contents
before it (the checks at lines 93-101 run before the database is opened). -/
theorem C7_invalid_root (dataset_path : String) (root : RootFS) (db0 : DB)
    (ee ep ed : List String) (en : Bool)
    (h : root = RootFS.missing ∨ root = RootFS.notDir) :
    (index_files dataset_path root db0 ee ep ed en).ok = false ∧
    (index_files dataset_path root db0 ee ep ed en).db = db0 := by
  rcases h with h | h <;> rw [h] <;> exact ⟨rfl, rfl⟩

theorem C7_witness :
    (index_files "/data" RootFS.missing [("/data/a.txt", 3)] [] [] [] true).ok
        = false ∧
    (index_files "/data" RootFS.missing [("/data/a.txt", 3)] [] [] [] true).db
        = [("/data/a.txt", 3)] :=
  C7_invalid_root "/data" RootFS.missing [("/data/a.txt", 3)] [] [] [] true
    (Or.inl rfl)

/-- C9 counterexample: the claim says every operation releases its storage
connection on every exit path; but neither function has a `finally` or a
`with` block, so on the error exit path (a `sqlite3.Error` raised after
`connect`, handled at lines 198-203 and 240-245) `db.close()` never runs. -/
theorem C9_counterexample :
    DbEvent.close ∉ index_files_events true ∧
    DbEvent.close ∉ find_files_events true := by
  decide

/-- C9 (amended): each public operation opens a storage connection and
closes it on the success path, but on an error exit path (storage failure
after the connect) the function returns without closing the connection —
release is not guaranteed on every exit path. -/
theorem C9_amended_connection_release :
    ∀ storageFails : Bool,
      DbEvent.connect ∈ index_files_events storageFails ∧
      DbEvent.connect ∈ find_files_events storageFails ∧
      (DbEvent.close ∈ index_files_events storageFails ↔ storageFails = false) ∧
      (DbEvent.close ∈ find_files_events storageFails ↔ storageFails = false) := by
  intro b
  cases b <;> simp [index_files_events, find_files_events]

/-- C6 counterexample: the claim states that the source behaviour on an
empty keyword list is to match every indexed path; in fact the generated
query `SELECT path FROM files WHERE ` is a SQL syntax error, so `find_files`
returns the error value None instead of the full path list. -/
theorem C6_counterexample :
    find_files [] [("a", 0)] = none ∧ find_files [] [("a", 0)] ≠ some ["a"] := by
  decide

/-- C6 (amended): calling `find_files` with an empty keyword list does not
crash — the SQL error is caught — and its behaviour is to reject the call,
returning the error value None (not to match every indexed path). -/
theorem C6_amended_empty_keywords (db : DB) : find_files [] db = none := rfl

/-- C2 counterexample: the claim says a returned path must contain every
keyword as a contiguous literal substring; with keyword "A" the query
returns the path "a" (LIKE folds ASCII case), yet "A" does not occur
literally in "a". -/
theorem C2_counterexample :
    find_files ["A"] [("a", 0)] = some ["a"] ∧ litSubstr "A" "a" = false := by
  decide

/-- C2 (amended): for a non-empty list of keywords free of the LIKE
wildcard characters `%` and `_`, `find_files` returns exactly the indexed
paths in which every keyword appears as a contiguous substring up to ASCII
case folding (conjunction over all keywords, order-independent, not
anchored, not word-boundary aware); for keywords containing `%` or `_` the
wildcard semantics of C10 applies instead, and the empty list is C6. -/
theorem C2_amended_like_search (kws : List String) (db : DB)
    (hne : kws ≠ [])
    (hk : ∀ kw ∈ kws, ∀ c ∈ kw.data, c ≠ '%' ∧ c ≠ '_') :
    find_files kws db = some ((db.filter (fun row =>
      kws.all (fun kw => ciSubstr kw row.1))).map (fun r => r.1)) := by
  cases kws with
  | nil => exact absurd rfl hne
  | cons k ks =>
    unfold find_files
    rw [if_neg (by simp)]
    congr 2
    apply List.filter_congr
    intro row _
    exact all_congr' (k :: ks) _ _
      (fun kw hkw => sqlLike_wrapped_eq_ciSubstr kw row.1 (hk kw hkw))

theorem C2_witness :
    find_files ["Re"] [("/data/report.txt", 1), ("/x", 2)]
      = some ((([("/data/report.txt", 1), ("/x", 2)] : DB).filter (fun row =>
          (["Re"] : List String).all (fun kw => ciSubstr kw row.1))).map
            (fun r => r.1)) :=
  C2_amended_like_search ["Re"] [("/data/report.txt", 1), ("/x", 2)]
    (by decide) (by decide)

/-- C10: because each keyword is interpolated into a `%...%` LIKE pattern,
keyword matching is case-insensitive for ASCII letters (lower-casing the
keywords does not change any result), and `%` / `_` inside a keyword act as
wildcards — `%` matches any run of characters, `_` exactly one character —
rather than as literal text: the keyword "A_C%E" selects the path
"xabcdex", in which it does not occur literally. -/
theorem C10_like_semantics :
    (∀ (kws : List String) (db : DB),
      find_files kws db = find_files (kws.map lowerStr) db) ∧
    (∀ (ps t u : List Char), likeMatch ps u = true →
      likeMatch ('%' :: ps) (t ++ u) = true) ∧
    (∀ (ps : List Char) (c : Char) (u : List Char),
      likeMatch ('_' :: ps) (c :: u) = likeMatch ps u) ∧
    find_files ["A_C%E"] [("xabcdex", 0)] = some ["xabcdex"] ∧
    litSubstr "A_C%E" "xabcdex" = false := by
  refine ⟨?_, ?_, ?_, ?_, ?_⟩
  · intro kws db
    unfold find_files
    rw [show (kws.map lowerStr).isEmpty = kws.isEmpty from by cases kws <;> rfl]
    by_cases h : kws.isEmpty = true
    · rw [if_pos h, if_pos h]
    · rw [if_neg h, if_neg h]
      congr 2
      apply List.filter_congr
      intro row _
      rw [List.all_map]
      exact (all_congr' kws _ _
        (fun kw _ => sqlLike_lower_keyword kw row.1)).symm
  · intro ps t u h
    rw [likeMatch_percent]
    exact (tryDrops_iff _ _).mpr ⟨t, u, rfl, h⟩
  · intro ps c u
    rw [likeMatch_nonpercent_cons (by decide)]
    rfl
  · decide
  · decide

theorem C10_witness :
    likeMatch ['%', 'b'] (['x'] ++ ['b']) = true :=
  C10_like_semantics.2.1 ['b'] ['x'] ['b'] (by decide)

theorem walkSub_append (dp : List String) (root : String) (xs ys : List Entry) :
    walkSub dp root (xs ++ ys) = walkSub dp root xs ++ walkSub dp root ys := by
  induction xs with
  | nil =>
    rw [List.nil_append]
    simp only [walkSub, List.nil_append]
  | cons e es ih =>
    cases e with
    | file n s =>
      rw [List.cons_append]
      simp only [walkSub]
      exact ih
    | dir n ch =>
      rw [List.cons_append]
      simp only [walkSub]
      rw [ih, List.append_assoc]

theorem walkVisits_prune (dp : List String) (root n : String)
    (ch : List Entry) (h : dirExcluded dp n = true) (es₁ es₂ : List Entry) :
    walkVisits dp root (es₁ ++ Entry.dir n ch :: es₂)
      = walkVisits dp root (es₁ ++ es₂) := by
  simp only [walkVisits]
  rw [walkSub_append, walkSub_append]
  simp only [walkSub, h, if_true, List.nil_append]
  unfold filesOf
  rw [List.filterMap_append, List.filterMap_append, List.filterMap_cons]

/-- The walk's visit list is invariant under removing a matching directory
anywhere in the tree: the traversal never reaches its contents. -/
theorem walkVisits_pruneAt {dp : List String} {es es' : List Entry}
    (h : PruneAt dp es es') :
    ∀ root, walkVisits dp root es = walkVisits dp root es' := by
  induction h with
  | here es₁ n ch es₂ hx =>
    intro root
    exact walkVisits_prune dp root n ch hx es₁ es₂
  | inside es₁ n ch ch' es₂ hx ih =>
    intro root
    simp only [walkVisits]
    rw [walkSub_append, walkSub_append]
    have hf : filesOf (es₁ ++ Entry.dir n ch :: es₂)
        = filesOf (es₁ ++ Entry.dir n ch' :: es₂) := by
      unfold filesOf
      rw [List.filterMap_append, List.filterMap_append, List.filterMap_cons,
        List.filterMap_cons]
    have hs : walkSub dp root (Entry.dir n ch :: es₂)
        = walkSub dp root (Entry.dir n ch' :: es₂) := by
      simp only [walkSub]
      rw [ih (pathJoin root n)]
    rw [hf, hs]

/-- C5: a directory whose base name matches a configured directory-exclusion
pattern is pruned from the walk wherever it occurs in the tree — directly
under the scan root or nested at any depth: the traversal never descends
into it, so the visit list — hence every error, every scanned path and the
whole sync result — is precisely that of the same tree with the matching
subtree removed; no file inside it is visited, reported as an error, or
present in the index after the sync. -/
theorem C5_directory_pruning (ed : List String) (dataset_path : String)
    (es es' : List Entry) (h : PruneAt ed es es')
    (db0 : DB) (ee ep : List String) :
    walkVisits ed dataset_path es = walkVisits ed dataset_path es' ∧
    index_files dataset_path (RootFS.dir es) db0 ee ep ed true
      = index_files dataset_path (RootFS.dir es') db0 ee ep ed true := by
  have hw := walkVisits_pruneAt h dataset_path
  refine ⟨hw, ?_⟩
  simp only [index_files_dir_eq]
  rw [show (mkRules ee ep ed true).dirPats = ed from rfl, hw]

theorem C5_witness :
    walkVisits ["node_modules"] "/r"
        ([Entry.file "a.txt" (some 1)] ++ Entry.dir "sub"
          ([Entry.file "b.txt" (some 2)]
            ++ Entry.dir "node_modules" [Entry.file "x.js" (some 3)] :: [])
          :: [])
      = walkVisits ["node_modules"] "/r"
        ([Entry.file "a.txt" (some 1)] ++ Entry.dir "sub"
          ([Entry.file "b.txt" (some 2)] ++ []) :: []) ∧
    index_files "/r"
        (RootFS.dir ([Entry.file "a.txt" (some 1)] ++ Entry.dir "sub"
          ([Entry.file "b.txt" (some 2)]
            ++ Entry.dir "node_modules" [Entry.file "x.js" (some 3)] :: [])
          :: []))
        [] [] [] ["node_modules"] true
      = index_files "/r"
        (RootFS.dir ([Entry.file "a.txt" (some 1)] ++ Entry.dir "sub"
          ([Entry.file "b.txt" (some 2)] ++ []) :: []))
        [] [] [] ["node_modules"] true :=
  C5_directory_pruning ["node_modules"] "/r" _ _
    (PruneAt.inside [Entry.file "a.txt" (some 1)] "sub"
      ([Entry.file "b.txt" (some 2)]
        ++ Entry.dir "node_modules" [Entry.file "x.js" (some 3)] :: [])
      ([Entry.file "b.txt" (some 2)] ++ []) []
      (PruneAt.here [Entry.file "b.txt" (some 2)] "node_modules"
        [Entry.file "x.js" (some 3)] [] (by decide)))
    [] [] []

/-- C3 counterexample: the claim says a pre-existing index entry for a path
whose mtime read fails is still present and unchanged after the sync.  On a
root holding one file "a" whose `getmtime` raises, with baseline entry
("/r/a", 5): the error is recorded and the per-file loop leaves the entry
alone, but the deletion pass (lines 168-173) finds "/r/a" unscanned and
deletes it — the table is empty afterwards. -/
theorem C3_counterexample :
    ("/r/a", (5 : Int)) ∈ ([("/r/a", 5)] : DB) ∧
    (index_files "/r" (RootFS.dir [Entry.file "a" none])
        [("/r/a", 5)] [] [] [] false).errors = ["/r/a"] ∧
    (index_files "/r" (RootFS.dir [Entry.file "a" none])
        [("/r/a", 5)] [] [] [] false).db = [] ∧
    (index_files "/r" (RootFS.dir [Entry.file "a" none])
        [("/r/a", 5)] [] [] [] false).deleted = 1 := by
  have hw : walkVisits (mkRules [] [] [] false).dirPats "/r" [Entry.file "a" none]
      = [⟨"/r", "a", none⟩] := by
    simp only [walkVisits, walkSub, filesOf]
    decide
  simp only [index_files_dir_eq, hw]
  decide

/-- C3 (amended): when a file's modification-timestamp read fails during a
sync, `index_files` records a per-path error, continues the scan, does not
add the path to the scanned set, and the per-file loop does not mutate that
path's entry (the table lookup still answers exactly as the baseline does);
however, because the path is not in the scanned set, the deletion pass then
removes any pre-existing entry for it: after the sync the path is absent
from the index, not preserved. -/
theorem C3_amended_stat_error (dataset_path : String) (entries : List Entry)
    (db0 : DB) (ee ep ed : List String) (en : Bool)
    (hdb0 : (db0.map Prod.fst).Nodup)
    (hvis : ((walkVisits (effDirPats ed en) dataset_path entries).map
      visitPath).Nodup)
    (v : FileVisit)
    (hv : v ∈ walkVisits (effDirPats ed en) dataset_path entries)
    (hex : fileExcluded (mkRules ee ep ed en) v = false)
    (hstat : v.stat = none) :
    visitPath v ∈
      (index_files dataset_path (RootFS.dir entries) db0 ee ep ed en).errors ∧
    visitPath v ∉ (scanFold (mkRules ee ep ed en) db0
      (walkVisits (effDirPats ed en) dataset_path entries)).scanned ∧
    dbFind? (scanFold (mkRules ee ep ed en) db0
        (walkVisits (effDirPats ed en) dataset_path entries)).db (visitPath v)
      = dbFind? db0 (visitPath v) ∧
    visitPath v ∉ (index_files dataset_path (RootFS.dir entries) db0 ee ep ed
      en).db.map Prod.fst := by
  set ru := mkRules ee ep ed en with hru
  set vs := walkVisits (effDirPats ed en) dataset_path entries with hvs
  have inv := scan_inv ru db0 vs hvis
  have hokv : okVisit ru v = false := by simp [okVisit, hstat]
  have herrv : errVisit ru v = true := by simp [errVisit, hex, hstat]
  have hidx : index_files dataset_path (RootFS.dir entries) db0 ee ep ed en
      = ⟨true, (deleteUnscanned db0 (scanFold ru db0 vs).scanned
            ((scanFold ru db0 vs).db, 0)).1,
          (scanFold ru db0 vs).scanned.length,
          (deleteUnscanned db0 (scanFold ru db0 vs).scanned
            ((scanFold ru db0 vs).db, 0)).2,
          (scanFold ru db0 vs).excluded, (scanFold ru db0 vs).errors,
          (scanFold ru db0 vs).updates, (scanFold ru db0 vs).inserts⟩ := rfl
  have hnotscanned : visitPath v ∉ (scanFold ru db0 vs).scanned := by
    rw [scanned_mem_iff ru db0 vs hvis]
    rintro ⟨v', hv', hok', hp'⟩
    rw [nodup_map_mem_inj hvis hv' hv hp', hokv] at hok'
    cases hok'
  refine ⟨?_, hnotscanned, ?_, ?_⟩
  · rw [hidx]
    show visitPath v ∈ (scanFold ru db0 vs).errors
    rw [inv.errors_eq]
    exact List.mem_map_of_mem visitPath (List.mem_filter.mpr ⟨hv, herrv⟩)
  · apply inv.find_other
    intro v' hv' hok' hc
    rw [nodup_map_mem_inj hvis hv' hv hc, hokv] at hok'
    cases hok'
  · rw [hidx]
    show visitPath v ∉ ((deleteUnscanned db0 (scanFold ru db0 vs).scanned
      ((scanFold ru db0 vs).db, 0)).1).map Prod.fst
    rw [deleteUnscanned_fst]
    intro hc
    exact hnotscanned (final_keys_scanned ru db0 vs hvis (visitPath v) hc)

theorem C3_witness :
    "/r/a" = visitPath ⟨"/r", "a", none⟩ ∧
    visitPath ⟨"/r", "a", none⟩ ∈
      (index_files "/r" (RootFS.dir [Entry.file "a" none])
        [("/r/a", 5)] [] [] [] false).errors ∧
    visitPath ⟨"/r", "a", none⟩ ∉ (scanFold (mkRules [] [] [] false)
      [("/r/a", 5)]
      (walkVisits (effDirPats [] false) "/r" [Entry.file "a" none])).scanned ∧
    dbFind? (scanFold (mkRules [] [] [] false) [("/r/a", 5)]
        (walkVisits (effDirPats [] false) "/r" [Entry.file "a" none])).db
        (visitPath ⟨"/r", "a", none⟩)
      = dbFind? [("/r/a", 5)] (visitPath ⟨"/r", "a", none⟩) ∧
    visitPath ⟨"/r", "a", none⟩ ∉ (index_files "/r"
      (RootFS.dir [Entry.file "a" none])
      [("/r/a", 5)] [] [] [] false).db.map Prod.fst := by
  have h := C3_amended_stat_error "/r" [Entry.file "a" none] [("/r/a", 5)]
    [] [] [] false (by decide)
    (by rw [show effDirPats [] false = [] from rfl]
        simp only [walkVisits, walkSub, filesOf]
        decide)
    ⟨"/r", "a", none⟩
    (by rw [show effDirPats [] false = [] from rfl]
        simp only [walkVisits, walkSub, filesOf]
        decide)
    (by decide) rfl
  exact ⟨by decide, h.1, h.2.1, h.2.2.1, h.2.2.2⟩

/-- The content of the table after a successful run: exactly the visited,
non-excluded files whose timestamp was read, with that timestamp. -/
theorem index_db_mem_iff (dataset_path : String) (entries : List Entry)
    (db0 : DB) (ee ep ed : List String) (en : Bool)
    (hdb0 : (db0.map Prod.fst).Nodup)
    (hvis : ((walkVisits (effDirPats ed en) dataset_path entries).map
      visitPath).Nodup) :
    (∀ p m, (p, m) ∈
        (index_files dataset_path (RootFS.dir entries) db0 ee ep ed en).db ↔
      ∃ v, v ∈ walkVisits (effDirPats ed en) dataset_path entries ∧
        fileExcluded (mkRules ee ep ed en) v = false ∧
        visitPath v = p ∧ v.stat = some m) := by
  set ru := mkRules ee ep ed en with hru
  set vs := walkVisits (effDirPats ed en) dataset_path entries with hvs
  have inv := scan_inv ru db0 vs hvis
  have hkeys := scanFold_keys_nodup ru db0 hdb0 vs hvis
  have hidx : index_files dataset_path (RootFS.dir entries) db0 ee ep ed en
      = ⟨true, (deleteUnscanned db0 (scanFold ru db0 vs).scanned
            ((scanFold ru db0 vs).db, 0)).1,
          (scanFold ru db0 vs).scanned.length,
          (deleteUnscanned db0 (scanFold ru db0 vs).scanned
            ((scanFold ru db0 vs).db, 0)).2,
          (scanFold ru db0 vs).excluded, (scanFold ru db0 vs).errors,
          (scanFold ru db0 vs).updates, (scanFold ru db0 vs).inserts⟩ := rfl
  intro p m
  rw [hidx]
  show (p, m) ∈ (deleteUnscanned db0 (scanFold ru db0 vs).scanned
    ((scanFold ru db0 vs).db, 0)).1 ↔ _
  rw [deleteUnscanned_fst]
  constructor
  · intro hp
    have hmemdb : (p, m) ∈ (scanFold ru db0 vs).db := (List.mem_filter.mp hp).1
    have hscan : p ∈ (scanFold ru db0 vs).scanned :=
      final_keys_scanned ru db0 vs hvis p (List.mem_map_of_mem Prod.fst hp)
    rcases (scanned_mem_iff ru db0 vs hvis p).mp hscan with ⟨v, hvl, hok, hpv⟩
    have hfind : dbFind? (scanFold ru db0 vs).db p = some m :=
      (mem_iff_dbFind? _ hkeys p m).mp hmemdb
    have hfm := inv.find_mem v hvl hok
    rw [hpv, hfind] at hfm
    refine ⟨v, hvl, ?_, hpv, hfm.symm⟩
    simp only [okVisit, Bool.and_eq_true, Bool.not_eq_true'] at hok
    exact hok.1
  · rintro ⟨v, hvl, hexf, hpv, hst⟩
    have hok : okVisit ru v = true := by simp [okVisit, hexf, hst]
    have hfind : dbFind? (scanFold ru db0 vs).db p = some m := by
      have hfm := inv.find_mem v hvl hok
      rw [hpv, hst] at hfm
      exact hfm
    have hmemdb : (p, m) ∈ (scanFold ru db0 vs).db :=
      (mem_iff_dbFind? _ hkeys p m).mpr hfind
    have hscan : p ∈ (scanFold ru db0 vs).scanned :=
      (scanned_mem_iff ru db0 vs hvis p).mpr ⟨v, hvl, hok, hpv⟩
    exact List.mem_filter.mpr ⟨hmemdb, by simp [keepRow, hscan]⟩

/-- C1: after `index_files` returns successfully on a directory root, the
rows of the `files` table are exactly the visited files that are not
excluded and whose modification timestamp was observed at scan time: the
set of stored path keys equals the set of such files' paths, and the mtime
stored with each path equals the timestamp observed for it (assuming
duplicate-free baseline keys and visit paths, as the PRIMARY KEY and a real
filesystem guarantee). -/
theorem C1_index_reflects_scan (dataset_path : String) (entries : List Entry)
    (db0 : DB) (ee ep ed : List String) (en : Bool)
    (hdb0 : (db0.map Prod.fst).Nodup)
    (hvis : ((walkVisits (effDirPats ed en) dataset_path entries).map
      visitPath).Nodup) :
    (index_files dataset_path (RootFS.dir entries) db0 ee ep ed en).ok = true ∧
    (∀ p m, (p, m) ∈
        (index_files dataset_path (RootFS.dir entries) db0 ee ep ed en).db ↔
      ∃ v, v ∈ walkVisits (effDirPats ed en) dataset_path entries ∧
        fileExcluded (mkRules ee ep ed en) v = false ∧
        visitPath v = p ∧ v.stat = some m) :=
  ⟨rfl, index_db_mem_iff dataset_path entries db0 ee ep ed en hdb0 hvis⟩

theorem C1_witness :
    (index_files "/d" (RootFS.dir [Entry.file "a.txt" (some 3)])
      [("/d/old", 7)] [] [] [] false).ok = true ∧
    (∀ p m, (p, m) ∈ (index_files "/d" (RootFS.dir [Entry.file "a.txt" (some 3)])
        [("/d/old", 7)] [] [] [] false).db ↔
      ∃ v, v ∈ walkVisits (effDirPats [] false) "/d" [Entry.file "a.txt" (some 3)] ∧
        fileExcluded (mkRules [] [] [] false) v = false ∧
        visitPath v = p ∧ v.stat = some m) :=
  C1_index_reflects_scan "/d" [Entry.file "a.txt" (some 3)] [("/d/old", 7)]
    [] [] [] false (by decide)
    (by rw [show effDirPats [] false = [] from rfl]
        simp only [walkVisits, walkSub, filesOf]
        decide)

/-- C4: with `enable_exclusions` on, every visited file whose lower-cased
extension is one of the configured (lower-cased, dot-prefixed) excluded
extensions, or whose base name matches any exclusion glob pattern — either
condition alone suffices — is absent from the index after the sync, and the
reported excluded count is exactly the number of excluded visits (so each
such file is counted); with `enable_exclusions` off, any visited file whose
timestamp was read is indexed, regardless of the configured rule content. -/
theorem C4_exclusion_rules (dataset_path : String) (entries : List Entry)
    (db0 : DB) (ee ep ed : List String)
    (hdb0 : (db0.map Prod.fst).Nodup)
    (hvisT : ((walkVisits (effDirPats ed true) dataset_path entries).map
      visitPath).Nodup)
    (hvisF : ((walkVisits (effDirPats ed false) dataset_path entries).map
      visitPath).Nodup) :
    (∀ v ∈ walkVisits (effDirPats ed true) dataset_path entries,
      (lowerStr (splitextExt (visitPath v)) ∈ effExts ee true ∨
        ∃ pattern ∈ ep, fnmatch v.name pattern = true) →
      visitPath v ∉ (index_files dataset_path (RootFS.dir entries) db0
        ee ep ed true).db.map Prod.fst) ∧
    (index_files dataset_path (RootFS.dir entries) db0 ee ep ed true).excluded
      = ((walkVisits (effDirPats ed true) dataset_path entries).filter
          (fileExcluded (mkRules ee ep ed true))).length ∧
    (∀ v ∈ walkVisits (effDirPats ed false) dataset_path entries, ∀ m : Int,
      v.stat = some m →
      (visitPath v, m) ∈ (index_files dataset_path (RootFS.dir entries) db0
        ee ep ed false).db) := by
  refine ⟨?_, ?_, ?_⟩
  · intro v hv hrule
    have hex : fileExcluded (mkRules ee ep ed true) v = true := by
      unfold fileExcluded
      rcases hrule with hrule | ⟨pattern, hpat, hmat⟩
      · rw [Bool.or_eq_true]
        left
        exact List.elem_iff.mpr hrule
      · rw [Bool.or_eq_true]
        right
        rw [List.any_eq_true]
        exact ⟨pattern, hpat, hmat⟩
    have hokv : okVisit (mkRules ee ep ed true) v = false := by
      simp [okVisit, hex]
    set ru := mkRules ee ep ed true with hru
    set vs := walkVisits (effDirPats ed true) dataset_path entries with hvs
    have hidx : index_files dataset_path (RootFS.dir entries) db0 ee ep ed true
        = ⟨true, (deleteUnscanned db0 (scanFold ru db0 vs).scanned
              ((scanFold ru db0 vs).db, 0)).1,
            (scanFold ru db0 vs).scanned.length,
            (deleteUnscanned db0 (scanFold ru db0 vs).scanned
              ((scanFold ru db0 vs).db, 0)).2,
            (scanFold ru db0 vs).excluded, (scanFold ru db0 vs).errors,
            (scanFold ru db0 vs).updates, (scanFold ru db0 vs).inserts⟩ := rfl
    rw [hidx]
    show visitPath v ∉ ((deleteUnscanned db0 (scanFold ru db0 vs).scanned
      ((scanFold ru db0 vs).db, 0)).1).map Prod.fst
    rw [deleteUnscanned_fst]
    intro hc
    have hscan := final_keys_scanned ru db0 vs hvisT (visitPath v) hc
    rcases (scanned_mem_iff ru db0 vs hvisT (visitPath v)).mp hscan with
      ⟨v', hv', hok', hp'⟩
    rw [nodup_map_mem_inj hvisT hv' hv hp', hokv] at hok'
    cases hok'
  · have inv := scan_inv (mkRules ee ep ed true) db0
      (walkVisits (effDirPats ed true) dataset_path entries) hvisT
    exact inv.excluded_eq
  · intro v hv m hst
    have hex : fileExcluded (mkRules ee ep ed false) v = false := by
      simp [fileExcluded, mkRules, effExts, effPats]
    exact (index_db_mem_iff dataset_path entries db0 ee ep ed false
      hdb0 hvisF (visitPath v) m).mpr ⟨v, hv, hex, rfl, hst⟩

theorem C4_witness :
    (∀ v ∈ walkVisits (effDirPats [] true) "/d"
        [Entry.file "a.tmp" (some 1), Entry.file "b.txt" (some 2)],
      (lowerStr (splitextExt (visitPath v)) ∈ effExts ["tmp"] true ∨
        ∃ pattern ∈ ([] : List String), fnmatch v.name pattern = true) →
      visitPath v ∉ (index_files "/d" (RootFS.dir
        [Entry.file "a.tmp" (some 1), Entry.file "b.txt" (some 2)]) []
        ["tmp"] [] [] true).db.map Prod.fst) ∧
    (index_files "/d" (RootFS.dir
        [Entry.file "a.tmp" (some 1), Entry.file "b.txt" (some 2)]) []
        ["tmp"] [] [] true).excluded
      = ((walkVisits (effDirPats [] true) "/d"
          [Entry.file "a.tmp" (some 1), Entry.file "b.txt" (some 2)]).filter
          (fileExcluded (mkRules ["tmp"] [] [] true))).length ∧
    (∀ v ∈ walkVisits (effDirPats [] false) "/d"
        [Entry.file "a.tmp" (some 1), Entry.file "b.txt" (some 2)],
      ∀ m : Int, v.stat = some m →
      (visitPath v, m) ∈ (index_files "/d" (RootFS.dir
        [Entry.file "a.tmp" (some 1), Entry.file "b.txt" (some 2)]) []
        ["tmp"] [] [] false).db) :=
  C4_exclusion_rules "/d"
    [Entry.file "a.tmp" (some 1), Entry.file "b.txt" (some 2)] []
    ["tmp"] [] [] (by decide)
    (by rw [show effDirPats [] true = [] from rfl]
        simp only [walkVisits, walkSub, filesOf]
        decide)
    (by rw [show effDirPats [] false = [] from rfl]
        simp only [walkVisits, walkSub, filesOf]
        decide)

/-- A fold of the per-file body over visits that are each excluded, failed,
or an unchanged no-op leaves the table untouched. -/
theorem scanFold_db_noop (ru : Rules) (ex : DB) (l : List FileVisit)
    (h : ∀ v ∈ l, fileExcluded ru v = true ∨ v.stat = none ∨
      (∃ m, v.stat = some m ∧ dbFind? ex (visitPath v) = some m)) :
    ∀ st : ScanState, (l.foldl (processFile ru ex) st).db = st.db := by
  induction l with
  | nil =>
    intro st
    rfl
  | cons v vs ih =>
    intro st
    rw [List.foldl_cons, ih (fun v' hv' => h v' (List.mem_cons_of_mem v hv'))]
    rcases h v (List.mem_cons_self v vs) with hx | hx | ⟨m, hm, hf⟩
    · simp [processFile, hx]
    · cases hex : fileExcluded ru v <;> simp [processFile, hex, hx]
    · cases hex : fileExcluded ru v
      · simp [processFile, hex, hm, hf]
      · simp [processFile, hex]

/-- C8: running `index_files` twice in succession over the same tree (no
filesystem changes between the runs) yields a second result whose deleted
count is 0 and in which no UPDATE and no INSERT statement is executed —
every scanned file is an unchanged no-op — leaving the index identical. -/
theorem C8_idempotence (dataset_path : String) (entries : List Entry)
    (db0 : DB) (ee ep ed : List String) (en : Bool)
    (hdb0 : (db0.map Prod.fst).Nodup)
    (hvis : ((walkVisits (effDirPats ed en) dataset_path entries).map
      visitPath).Nodup) :
    (index_files dataset_path (RootFS.dir entries)
      (index_files dataset_path (RootFS.dir entries) db0 ee ep ed en).db
      ee ep ed en).deleted = 0 ∧
    (index_files dataset_path (RootFS.dir entries)
      (index_files dataset_path (RootFS.dir entries) db0 ee ep ed en).db
      ee ep ed en).updates = 0 ∧
    (index_files dataset_path (RootFS.dir entries)
      (index_files dataset_path (RootFS.dir entries) db0 ee ep ed en).db
      ee ep ed en).inserts = 0 ∧
    (index_files dataset_path (RootFS.dir entries)
      (index_files dataset_path (RootFS.dir entries) db0 ee ep ed en).db
      ee ep ed en).db
      = (index_files dataset_path (RootFS.dir entries) db0 ee ep ed en).db := by
  set ru := mkRules ee ep ed en with hru
  set vs := walkVisits (effDirPats ed en) dataset_path entries with hvs
  set st1 := scanFold ru db0 vs with hst1
  set r1db := (index_files dataset_path (RootFS.dir entries) db0 ee ep ed
    en).db with hr1db
  have inv1 := scan_inv ru db0 vs hvis
  have hkeys1 := scanFold_keys_nodup ru db0 hdb0 vs hvis
  have hr1 : r1db = st1.db.filter (keepRow db0 st1.scanned) := by
    rw [hr1db,
      show (index_files dataset_path (RootFS.dir entries) db0 ee ep ed en).db
        = (deleteUnscanned db0 st1.scanned (st1.db, 0)).1 from rfl,
      deleteUnscanned_fst]
  have hkeysr1 : (r1db.map Prod.fst).Nodup := by
    rw [hr1]
    exact List.Nodup.sublist (keys_filter_sublist _ _) hkeys1
  have hscansub : ∀ p ∈ r1db.map Prod.fst, p ∈ st1.scanned := by
    intro p hp
    rw [hr1] at hp
    exact final_keys_scanned ru db0 vs hvis p hp
  have hfindr1 : ∀ v ∈ vs, okVisit ru v = true →
      dbFind? r1db (visitPath v) = v.stat := by
    intro v hv hok
    rw [hr1, dbFind?_filter]
    · exact inv1.find_mem v hv hok
    · intro r _ hrp
      have hsc : visitPath v ∈ st1.scanned :=
        (scanned_mem_iff ru db0 vs hvis _).mpr ⟨v, hv, hok, rfl⟩
      simp [keepRow, hrp, hsc]
  have inv2 := scan_inv ru r1db vs hvis
  have hnoop : (scanFold ru r1db vs).db = r1db := by
    unfold scanFold
    apply scanFold_db_noop
    intro v hv
    cases hex : fileExcluded ru v
    · cases hstat : v.stat with
      | none => exact Or.inr (Or.inl rfl)
      | some m =>
        have hok : okVisit ru v = true := by simp [okVisit, hex, hstat]
        refine Or.inr (Or.inr ⟨m, rfl, ?_⟩)
        have h1 := hfindr1 v hv hok
        rw [hstat] at h1
        exact h1
    · exact Or.inl rfl
  have hscaneq : (scanFold ru r1db vs).scanned = st1.scanned := by
    rw [inv2.scanned_eq, inv1.scanned_eq]
  have hallok : ∀ v ∈ vs, okVisit ru v = true →
      ∃ m, v.stat = some m ∧ dbFind? r1db (visitPath v) = some m := by
    intro v hv hok
    have hsome : v.stat.isSome = true := by
      simp only [okVisit, Bool.and_eq_true] at hok
      exact hok.2
    rcases Option.isSome_iff_exists.mp hsome with ⟨m, hm⟩
    have h1 := hfindr1 v hv hok
    rw [hm] at h1
    exact ⟨m, hm, h1⟩
  refine ⟨?_, ?_, ?_, ?_⟩
  · rw [show (index_files dataset_path (RootFS.dir entries) r1db ee ep ed
        en).deleted
      = (deleteUnscanned r1db (scanFold ru r1db vs).scanned
          ((scanFold ru r1db vs).db, 0)).2 from rfl,
      deleteUnscanned_snd]
    have hnil : r1db.filter
        (fun r => !decide (r.1 ∈ (scanFold ru r1db vs).scanned)) = [] := by
      apply List.filter_eq_nil_iff.mpr
      intro r hr
      have : r.1 ∈ (scanFold ru r1db vs).scanned := by
        rw [hscaneq]
        exact hscansub r.1 (List.mem_map_of_mem Prod.fst hr)
      simp [this]
    rw [hnil]
    rfl
  · rw [show (index_files dataset_path (RootFS.dir entries) r1db ee ep ed
        en).updates = (scanFold ru r1db vs).updates from rfl,
      inv2.updates_eq]
    have hnil : vs.filter (isUpdateVisit ru r1db) = [] := by
      apply List.filter_eq_nil_iff.mpr
      intro v hv
      cases hok : okVisit ru v
      · simp [isUpdateVisit, hok]
      · rcases hallok v hv hok with ⟨m, hm, h1⟩
        simp [isUpdateVisit, hok, hm, h1]
    rw [hnil]
    rfl
  · rw [show (index_files dataset_path (RootFS.dir entries) r1db ee ep ed
        en).inserts = (scanFold ru r1db vs).inserts from rfl,
      inv2.inserts_eq]
    have hnil : vs.filter (isInsertVisit ru r1db) = [] := by
      apply List.filter_eq_nil_iff.mpr
      intro v hv
      cases hok : okVisit ru v
      · simp [isInsertVisit, hok]
      · rcases hallok v hv hok with ⟨m, _, h1⟩
        have hhas : dbHas r1db (visitPath v) = true := by
          rw [dbHas_eq_isSome, h1]
          rfl
        simp [isInsertVisit, hok, hhas]
    rw [hnil]
    rfl
  · rw [show (index_files dataset_path (RootFS.dir entries) r1db ee ep ed
        en).db
      = (deleteUnscanned r1db (scanFold ru r1db vs).scanned
          ((scanFold ru r1db vs).db, 0)).1 from rfl,
      deleteUnscanned_fst]
    show (scanFold ru r1db vs).db.filter _ = r1db
    rw [hnoop]
    apply List.filter_eq_self.mpr
    intro r hr
    have hsc : r.1 ∈ (scanFold ru r1db vs).scanned := by
      rw [hscaneq]
      exact hscansub r.1 (List.mem_map_of_mem Prod.fst hr)
    simp [keepRow, hsc]

theorem C8_witness :
    (index_files "/d" (RootFS.dir [Entry.file "a.txt" (some 3)])
      (index_files "/d" (RootFS.dir [Entry.file "a.txt" (some 3)])
        [("/d/old", 7)] [] [] [] false).db [] [] [] false).deleted = 0 ∧
    (index_files "/d" (RootFS.dir [Entry.file "a.txt" (some 3)])
      (index_files "/d" (RootFS.dir [Entry.file "a.txt" (some 3)])
        [("/d/old", 7)] [] [] [] false).db [] [] [] false).updates = 0 ∧
    (index_files "/d" (RootFS.dir [Entry.file "a.txt" (some 3)])
      (index_files "/d" (RootFS.dir [Entry.file "a.txt" (some 3)])
        [("/d/old", 7)] [] [] [] false).db [] [] [] false).inserts = 0 ∧
    (index_files "/d" (RootFS.dir [Entry.file "a.txt" (some 3)])
      (index_files "/d" (RootFS.dir [Entry.file "a.txt" (some 3)])
        [("/d/old", 7)] [] [] [] false).db [] [] [] false).db
      = (index_files "/d" (RootFS.dir [Entry.file "a.txt" (some 3)])
        [("/d/old", 7)] [] [] [] false).db :=
  C8_idempotence "/d" [Entry.file "a.txt" (some 3)] [("/d/old", 7)]
    [] [] [] false (by decide)
    (by rw [show effDirPats [] false = [] from rfl]
        simp only [walkVisits, walkSub, filesOf]
        decide)

end FileIndex
